import Mathlib

/-!
# LifeVault backend — Provenance & Wallet-Trust subsystem, shallow embedding

This file embeds, in Lean 4, the parts of the LifeVault backend that the
verification claims are about:

* the wallet-signature authentication helpers and the `/wallet` route decision
  (`verifyPetraSignature`, `verifySignatureAlternative`,
  `validateSignatureStructure`, `hexToUint8Array`,
  `deriveAddressFromPublicKey`, and the accept/reject logic of
  `router.post('/wallet')` from the auth routes file);
* the anchoring entry point `storeMemoryOnChain` of the Aptos service
  (`src/services/aptosService.js`), with its mock short-circuit;
* the `MemoryVault` Solidity contract (`storeMemory`, `getMemory`,
  `transferMemory`, `getUserMemories`, `verifyOwnership`,
  `getTotalMemories`, `_removeFromUserMemories`), as a state-transition
  system over an explicit ledger state.

JavaScript strings are modelled as Lean `String`s, byte arrays as `List Nat`
(each entry < 256 by construction), thrown exceptions as `Except String`,
and a `try { .. } catch { return false }` block as a total function that maps
the error case to `false`.  The Ed25519 primitive
`nacl.sign.detached.verify` is kept abstract as a verification oracle
parameter; the tweetnacl wrapper's length checks (which throw on a signature
that is not 64 bytes or a public key that is not 32 bytes) are modelled
explicitly around the oracle.
-/

namespace LifeVault

instance {ε α : Type} [DecidableEq ε] [DecidableEq α] :
    DecidableEq (Except ε α) := fun a b =>
  match a, b with
  | .ok x, .ok y =>
    if h : x = y then isTrue (by rw [h])
    else isFalse (fun hh => h (Except.ok.inj hh))
  | .error x, .error y =>
    if h : x = y then isTrue (by rw [h])
    else isFalse (fun hh => h (Except.error.inj hh))
  | .ok _, .error _ => isFalse (fun hh => Except.noConfusion hh)
  | .error _, .ok _ => isFalse (fun hh => Except.noConfusion hh)

/-! ## JavaScript primitives: hex decoding as the source performs it -/

/-- Value of a hexadecimal digit character, `none` for any other character. -/
def hexDigitVal (c : Char) : Option Nat :=
  if '0' ≤ c ∧ c ≤ '9' then some (c.toNat - '0'.toNat)
  else if 'a' ≤ c ∧ c ≤ 'f' then some (c.toNat - 'a'.toNat + 10)
  else if 'A' ≤ c ∧ c ≤ 'F' then some (c.toNat - 'A'.toNat + 10)
  else none

/-- Characters JavaScript's `parseInt` skips as leading whitespace. -/
def jsWhitespace (c : Char) : Bool :=
  c = ' ' ∨ c = '\t' ∨ c = '\n' ∨ c = '\r' ∨ c = '\x0b' ∨ c = '\x0c'

/-- `parseInt(c, 16)` on a one-character string: a hex digit parses to its
value, anything else is `NaN` (`none`). -/
def jsParseIntHex1 (c : Char) : Option Int :=
  match hexDigitVal c with
  | some v => some (v : Int)
  | none => none

/-- `parseInt(s, 16)` on a two-character string `⟨c1, c2⟩`, as JavaScript
evaluates it: optional leading whitespace, an optional sign, an optional
`0x`/`0X` prefix, then the longest prefix of hex digits; `none` models `NaN`.
-/
def jsParseIntHex2 (c1 c2 : Char) : Option Int :=
  if jsWhitespace c1 then jsParseIntHex1 c2
  else if c1 = '+' then jsParseIntHex1 c2
  else if c1 = '-' then (jsParseIntHex1 c2).map (fun v => -v)
  else if c1 = '0' ∧ (c2 = 'x' ∨ c2 = 'X') then none
  else
    match hexDigitVal c1 with
    | some v1 =>
      match hexDigitVal c2 with
      | some v2 => some ((16 * v1 + v2 : Nat) : Int)
      | none => some (v1 : Int)
    | none => none

/-- JavaScript's `ToUint8` conversion applied when an integer (or `NaN`) is
stored into a `Uint8Array` slot: `NaN` becomes `0`, integers are reduced
modulo `2^8`. -/
def jsToUint8 : Option Int → Nat
  | none => 0
  | some v => (v % 256).toNat

/-- The byte-pair loop of `hexToUint8Array`: consume the character list two
at a time, storing `parseInt(pair, 16)` through `ToUint8`. -/
def hexPairsToBytes : List Char → List Nat
  | c1 :: c2 :: rest => jsToUint8 (jsParseIntHex2 c1 c2) :: hexPairsToBytes rest
  | _ => []

/-- `hexToUint8Array(hexString)` from the auth routes file: throws
`'Invalid hex string'` when the length is odd, otherwise converts each
two-character chunk with `parseInt(chunk, 16)` into a `Uint8Array`. -/
def hexToUint8Array (hexString : String) : Except String (List Nat) :=
  if hexString.length % 2 ≠ 0 then .error "Invalid hex string"
  else .ok (hexPairsToBytes hexString.data)

/-- `s.startsWith('0x')`, written over the character list so that it
evaluates by kernel reduction. -/
def startsWith0x (s : String) : Bool :=
  match s.data with
  | '0' :: 'x' :: _ => true
  | _ => false

/-- The `0x`-stripping step every caller performs before `hexToUint8Array`:
`s.startsWith('0x') ? s.slice(2) : s`. -/
def strip0x (s : String) : String :=
  match s.data with
  | '0' :: 'x' :: rest => String.mk rest
  | _ => s

/-- `s.toLowerCase()` restricted to its ASCII action, which is all the
route applies it to (hex addresses). -/
def jsToLower (s : String) : String :=
  String.mk (s.data.map Char.toLower)

/-- UTF-8 encoding of a character list, code point by code point. -/
def utf8Bytes : List Char → List Nat
  | [] => []
  | c :: cs =>
    let n := c.toNat
    (if n < 0x80 then [n]
     else if n < 0x800 then [0xC0 + n / 64, 0x80 + n % 64]
     else if n < 0x10000 then
       [0xE0 + n / 4096, 0x80 + (n / 64) % 64, 0x80 + n % 64]
     else
       [0xF0 + n / 262144, 0x80 + (n / 4096) % 64, 0x80 + (n / 64) % 64,
        0x80 + n % 64]) ++ utf8Bytes cs

/-- `new TextEncoder().encode(s)`: the UTF-8 bytes of a string. -/
def textEncode (s : String) : List Nat :=
  utf8Bytes s.data

example : hexToUint8Array "00ff" = .ok [0, 255] := by decide
example : hexToUint8Array "0ff" = .error "Invalid hex string" := by decide
example : hexToUint8Array "zz" = .ok [0] := by decide
example : strip0x "0xab" = "ab" := by decide
example : textEncode "mn" = [109, 110] := by decide

/-! ## The signature-verification helpers of the auth routes file -/

/-- An abstract Ed25519 verification outcome: given message bytes, signature
bytes and public-key bytes, does the cryptographic check succeed?  The
embedding is parametric in this oracle because the claims are about the
surrounding control flow, not about Ed25519 itself. -/
def VerifyOracle : Type := List Nat → List Nat → List Nat → Bool

/-- `nacl.sign.detached.verify(msg, sig, pk)`: tweetnacl throws on a
signature that is not 64 bytes or a public key that is not 32 bytes, and
otherwise returns the cryptographic verdict. -/
def naclDetachedVerify (v : VerifyOracle) (msg sig pk : List Nat) :
    Except String Bool :=
  if sig.length ≠ 64 then .error "bad signature size"
  else if pk.length ≠ 32 then .error "bad public key size"
  else .ok (v msg sig pk)

/-- A JavaScript `try { body } catch { return false }` around an
exception-prone boolean body. -/
def jsCatchFalse (body : Except String Bool) : Bool :=
  match body with
  | .ok b => b
  | .error _ => false

/-- The `try`-block body of `verifyPetraSignature(fullMessage, signature,
publicKey)`: strip `0x` from signature and public key, hex-decode both,
UTF-8-encode the full message, and run `nacl.sign.detached.verify`. -/
def verifyPetraSignatureBody (v : VerifyOracle)
    (fullMessage signature publicKey : String) : Except String Bool := do
  let signatureBytes ← hexToUint8Array (strip0x signature)
  let publicKeyBytes ← hexToUint8Array (strip0x publicKey)
  let messageBytes := textEncode fullMessage
  naclDetachedVerify v messageBytes signatureBytes publicKeyBytes

/-- `verifyPetraSignature`: the body above with its enclosing
`catch (error) { return false }`. -/
def verifyPetraSignature (v : VerifyOracle)
    (fullMessage signature publicKey : String) : Bool :=
  jsCatchFalse (verifyPetraSignatureBody v fullMessage signature publicKey)

/-- The `messageFormats` array of `verifySignatureAlternative`, in source
order: the raw message first, then the Petra domain template, then the
template with mainnet chain id, then with testnet chain id. -/
def messageFormats (message nonce : String) : List String :=
  [ message,
    "APTOS\nmessage: " ++ message ++ "\nnonce: " ++ nonce,
    "APTOS\nmessage: " ++ message ++ "\nnonce: " ++ nonce ++ "\nchainId: 1",
    "APTOS\nmessage: " ++ message ++ "\nnonce: " ++ nonce ++ "\nchainId: 2" ]

/-- The `for (const msg of messageFormats)` loop: each candidate is checked
under an inner `try` whose `catch` falls through to the next candidate; the
loop returns on the first candidate whose check yields `true`. -/
def tryFormats (v : VerifyOracle) (sigBytes pkBytes : List Nat) :
    List String → Bool
  | [] => false
  | msg :: rest =>
    match naclDetachedVerify v (textEncode msg) sigBytes pkBytes with
    | .ok true => true
    | _ => tryFormats v sigBytes pkBytes rest

/-- The `try`-block body of `verifySignatureAlternative(message, signature,
publicKey, nonce)`. -/
def verifySignatureAlternativeBody (v : VerifyOracle)
    (message signature publicKey nonce : String) : Except String Bool := do
  let signatureBytes ← hexToUint8Array (strip0x signature)
  let publicKeyBytes ← hexToUint8Array (strip0x publicKey)
  pure (tryFormats v signatureBytes publicKeyBytes (messageFormats message nonce))

/-- `verifySignatureAlternative` with its enclosing `catch { return false }`. -/
def verifySignatureAlternative (v : VerifyOracle)
    (message signature publicKey nonce : String) : Bool :=
  jsCatchFalse (verifySignatureAlternativeBody v message signature publicKey nonce)

/-- The `try`-block body of `validateSignatureStructure(signature,
publicKey)`: decode both and compare byte lengths to 64 and 32. -/
def validateSignatureStructureBody (signature publicKey : String) :
    Except String Bool := do
  let sigBytes ← hexToUint8Array (strip0x signature)
  let pubKeyBytes ← hexToUint8Array (strip0x publicKey)
  pure (sigBytes.length == 64 && pubKeyBytes.length == 32)

/-- `validateSignatureStructure` with its enclosing `catch { return false }`. -/
def validateSignatureStructure (signature publicKey : String) : Bool :=
  jsCatchFalse (validateSignatureStructureBody signature publicKey)

/-- An abstract SHA3-256 producing the 64-character lowercase hex digest, as
`js-sha3`'s `sha3_256` does; kept abstract because no claim depends on the
hash values themselves. -/
def HashHex : Type := List Nat → String

/-- `deriveAddressFromPublicKey(publicKey)`: strip `0x`, hex-decode, append
the single-key scheme byte `0x00`, hash, and prefix with `0x`; the `catch`
returns `null` (modelled as `none`). -/
def deriveAddressFromPublicKey (h : HashHex) (publicKey : String) :
    Option String :=
  match hexToUint8Array (strip0x publicKey) with
  | .error _ => none
  | .ok pubKeyBytes => some ("0x" ++ h (pubKeyBytes ++ [0]))

/-! ## The `/wallet` route decision

`router.post('/wallet')` destructures `{address, publicKey, signature,
message, nonce, fullMessage}` from the request body; absent fields are
`undefined`.  A field is modelled as `Option String`, with JavaScript
truthiness of a possibly-absent string being `none ↦ false`, `"" ↦ false`.
The route's authentication decision is one of: a 400 for missing fields, a
401 `'Invalid wallet signature'`, or proceeding to the find-or-create-user
success response (which does not depend on which verification tier
succeeded). -/

/-- JavaScript truthiness of an optional string field. -/
def jsTruthy : Option String → Bool
  | none => false
  | some s => s ≠ ""

/-- A `/wallet` request body's authentication-relevant fields. -/
structure WalletAuthReq where
  address : Option String
  publicKey : Option String
  signature : Option String
  message : Option String
  nonce : Option String
  fullMessage : Option String
deriving DecidableEq

/-- The caller-visible outcome of the `/wallet` route's authentication
decision: `badRequest` is the 400 'Missing required wallet authentication
data' response, `unauthorized` the 401 'Invalid wallet signature' response,
and `authenticated` the single success continuation (find-or-create the
user for `address`, store `publicKey`, issue a token) — the source has no
other exit from the verification logic and the success continuation is the
same no matter which verification method set `isValid`. -/
inductive WalletAuthOutcome where
  | badRequest
  | unauthorized
  | authenticated (address publicKey : String)
deriving DecidableEq

/-- The `addressMatches` computation of the route (lines 185–196 of the auth
routes file): derive an address from the public key and compare
case-insensitively with the claimed address. -/
def walletAddressMatches (h : HashHex) (req : WalletAuthReq) : Bool :=
  match deriveAddressFromPublicKey h (req.publicKey.getD "") with
  | none => false
  | some derived => jsToLower derived == jsToLower (req.address.getD "")

set_option linter.unusedVariables false in
/-- The route's decision with the address-comparison outcome abstracted as
an explicit boolean argument.  In the source the comparison result feeds
only a `console.log` inside `if (!addressMatches) { ... }`; it enters no
other branch, which the embedding reflects by taking it as an (unused)
argument. -/
def walletAuthDecisionCore (v : VerifyOracle) (addressMatches : Bool)
    (req : WalletAuthReq) : WalletAuthOutcome :=
  if ¬ (jsTruthy req.address ∧ jsTruthy req.publicKey ∧ jsTruthy req.signature)
  then .badRequest
  else
    let address := req.address.getD ""
    let publicKey := req.publicKey.getD ""
    let signature := req.signature.getD ""
    -- Method 1: verify with fullMessage (preferred)
    let isValid1 : Bool :=
      if jsTruthy req.fullMessage then
        verifyPetraSignature v (req.fullMessage.getD "") signature publicKey
      else false
    -- Method 2: try alternative formats
    let isValid2 : Bool :=
      if ¬ isValid1 ∧ jsTruthy req.message ∧ jsTruthy req.nonce then
        verifySignatureAlternative v (req.message.getD "") signature publicKey
          (req.nonce.getD "")
      else isValid1
    -- Method 3: validate structure and trust the wallet
    let isValid3 : Bool :=
      if ¬ isValid2 then
        if validateSignatureStructure signature publicKey then
          if address ≠ "" ∧ startsWith0x address = true ∧ address.length = 66
          then true
          else false
        else false
      else isValid2
    if isValid3 then .authenticated address publicKey else .unauthorized

/-- The route's decision as the source computes it, deriving the address
comparison from the supplied public key. -/
def walletAuthDecision (v : VerifyOracle) (h : HashHex)
    (req : WalletAuthReq) : WalletAuthOutcome :=
  walletAuthDecisionCore v (walletAddressMatches h req) req

/-! ## `AptosService.storeMemoryOnChain` (`src/services/aptosService.js`)

The on-chain anchoring entry point, modelled for an initialized service.
The receipt object is modelled with the exact fields the source returns;
fields absent from a given return object are `none`.  The spec's
`AnchorReceipt.confirmed` flag corresponds to this object's `success`
field, its `version` to `txVersion` and its `gasOrFeeUsed` to `gasUsed`.
The blocking ledger round trip (`transaction.build.simple` →
`transaction.sign` → `transaction.submit.simple` → `waitForTransaction`)
is abstracted as a transport oracle from the fully qualified function id to
either a failure reason or the executed transaction's data, and each
transport interaction is recorded in a call trace. -/

/-- The data the ledger transport yields for a submitted transaction. -/
structure ChainTx where
  hash : String
  version : String
  gasUsed : String
  vmStatus : String
deriving DecidableEq

/-- One interaction with the Aptos SDK's ledger transport. -/
inductive LedgerCall where
  | build
  | sign
  | submit
  | waitForTransaction
deriving DecidableEq

/-- The object `storeMemoryOnChain` returns; `none` marks a field that the
source's return object does not contain on that path. -/
structure AnchorReceipt where
  success : Bool
  mock : Option Bool
  message : Option String
  txHash : Option String
  txVersion : Option String
  gasUsed : Option String
  vmStatus : Option String
  ipfsHash : Option String
deriving DecidableEq

/-- `storeMemoryOnChain(ipfsHash)` for an initialized service:
`moduleAddress` is `process.env.APTOS_MODULE_ADDRESS` (absent ⇒ `none`),
`now` is `Date.now()`, and `transport` the ledger round trip.  Returns the
receipt together with the trace of transport calls made; a transport
failure is re-thrown as `'Aptos transaction failed: …'`. -/
def storeMemoryOnChain (moduleAddress : Option String) (moduleName : String)
    (now : Nat) (transport : String → Except String ChainTx)
    (ipfsHash : String) : Except String (AnchorReceipt × List LedgerCall) :=
  match moduleAddress with
  | none =>
    .ok ({ success := true
           mock := some true
           message := some "Module not deployed - mock transaction"
           txHash := some ("mock_" ++ toString now)
           txVersion := none
           gasUsed := none
           vmStatus := none
           ipfsHash := some ipfsHash }, [])
  | some addr =>
    match transport (addr ++ "::" ++ moduleName ++ "::store_memory") with
    | .error e => .error ("Aptos transaction failed: " ++ e)
    | .ok tx =>
      .ok ({ success := true
             mock := none
             message := none
             txHash := some tx.hash
             txVersion := some tx.version
             gasUsed := some tx.gasUsed
             vmStatus := some tx.vmStatus
             ipfsHash := some ipfsHash },
           [.build, .sign, .submit, .waitForTransaction])

/-! ## The `MemoryVault` Solidity contract

State-transition embedding of the contract.  Addresses are modelled as
natural numbers with `0` for `address(0)`; mappings are total functions
with the Solidity default values (`exists = false` record, empty id
array).  A `require` failure reverts the transaction, so a failing
operation yields an error and no state; `transferMemoryExec` packages the
revert semantics explicitly.  The contract's `exists` field is named
`existsFlag` because `exists` is reserved in Lean. -/

/-- The `Memory` struct. -/
structure MemRec where
  ipfsHash : String
  owner : Nat
  timestamp : Nat
  existsFlag : Bool
deriving DecidableEq

/-- Solidity's default value for `Memory`. -/
def emptyMemRec : MemRec := ⟨"", 0, 0, false⟩

/-- An emitted contract event. -/
inductive VaultEvent where
  | memoryStored (memoryId owner : Nat) (ipfsHash : String) (timestamp : Nat)
  | memoryTransferred (memoryId fromOwner toOwner : Nat)
deriving DecidableEq

/-- The contract state: `_memoryCounter`, `_memories`, `_userMemories`,
plus the log of emitted events. -/
structure VaultState where
  memoryCounter : Nat
  memories : Nat → MemRec
  userMemories : Nat → List Nat
  events : List VaultEvent

/-- The state of a freshly deployed contract. -/
def initialVaultState : VaultState :=
  { memoryCounter := 0
    memories := fun _ => emptyMemRec
    userMemories := fun _ => []
    events := [] }

/-- The revert reasons of the contract, by `require` message:
`invalidInput` covers `'IPFS hash cannot be empty'`, `'Invalid address'`
and `'Cannot transfer to self'`; `notFound` is `'Memory does not exist'`;
`notAuthorized` is `'Not the owner'`. -/
inductive VaultError where
  | invalidInput
  | notFound
  | notAuthorized
deriving DecidableEq

/-- `storeMemory(ipfsHash)` called by `sender` at block timestamp `ts`. -/
def storeMemory (σ : VaultState) (sender ts : Nat) (ipfsHash : String) :
    Except VaultError (Nat × VaultState) :=
  if ipfsHash = "" then .error .invalidInput
  else
    let memoryId := σ.memoryCounter + 1
    .ok (memoryId,
      { memoryCounter := memoryId
        memories := fun i =>
          if i = memoryId then ⟨ipfsHash, sender, ts, true⟩ else σ.memories i
        userMemories := fun a =>
          if a = sender then σ.userMemories a ++ [memoryId]
          else σ.userMemories a
        events := σ.events ++ [.memoryStored memoryId sender ipfsHash ts] })

/-- `getMemory(memoryId)`. -/
def getMemory (σ : VaultState) (memoryId : Nat) :
    Except VaultError (String × Nat × Nat) :=
  if (σ.memories memoryId).existsFlag then
    .ok ((σ.memories memoryId).ipfsHash, (σ.memories memoryId).owner,
         (σ.memories memoryId).timestamp)
  else .error .notFound

/-- `getUserMemories(user)`. -/
def getUserMemories (σ : VaultState) (user : Nat) : List Nat :=
  σ.userMemories user

/-- `getTotalMemories()`. -/
def getTotalMemories (σ : VaultState) : Nat :=
  σ.memoryCounter

/-- `verifyOwnership(memoryId, user)`. -/
def verifyOwnership (σ : VaultState) (memoryId user : Nat) : Bool :=
  (σ.memories memoryId).existsFlag && (σ.memories memoryId).owner == user

/-- `_removeFromUserMemories(user, memoryId)` applied to one bucket: scan
for the first occurrence of `memoryId`; when found at index `i`, overwrite
slot `i` with the array's last element and pop the last slot. -/
def removeFromUserMemories (userMems : List Nat) (memoryId : Nat) :
    List Nat :=
  if memoryId ∈ userMems then
    (userMems.set (userMems.indexOf memoryId) (userMems.getLastD 0)).dropLast
  else userMems

/-- `transferMemory(memoryId, newOwner)` called by `sender`: the
`onlyOwner` modifier's two `require`s, then the zero-address and
self-transfer `require`s, then removal from the old owner's bucket, the
owner update, the append to the new owner's bucket and the event. -/
def transferMemory (σ : VaultState) (sender memoryId newOwner : Nat) :
    Except VaultError VaultState :=
  if ¬ (σ.memories memoryId).existsFlag then .error .notFound
  else if (σ.memories memoryId).owner ≠ sender then .error .notAuthorized
  else if newOwner = 0 then .error .invalidInput
  else if newOwner = sender then .error .invalidInput
  else .ok
    { memoryCounter := σ.memoryCounter
      memories := fun i =>
        if i = memoryId then { σ.memories memoryId with owner := newOwner }
        else σ.memories i
      userMemories := fun a =>
        if a = sender then removeFromUserMemories (σ.userMemories a) memoryId
        else if a = newOwner then σ.userMemories a ++ [memoryId]
        else σ.userMemories a
      events := σ.events ++ [.memoryTransferred memoryId sender newOwner] }

/-- `transferMemory` with the EVM's revert semantics made explicit: a
failing call leaves the pre-state in place. -/
def transferMemoryExec (σ : VaultState) (sender memoryId newOwner : Nat) :
    Option VaultError × VaultState :=
  match transferMemory σ sender memoryId newOwner with
  | .ok σ' => (none, σ')
  | .error e => (some e, σ)

/-- An externally invoked mutating operation of the contract. -/
inductive VaultOp where
  | store (sender ts : Nat) (ipfsHash : String)
  | transfer (sender memoryId newOwner : Nat)

/-- Apply one operation; a reverting call leaves the state unchanged. -/
def applyVaultOp (σ : VaultState) : VaultOp → VaultState
  | .store sender ts ipfsHash =>
    match storeMemory σ sender ts ipfsHash with
    | .ok (_, σ') => σ'
    | .error _ => σ
  | .transfer sender memoryId newOwner =>
    match transferMemory σ sender memoryId newOwner with
    | .ok σ' => σ'
    | .error _ => σ

/-- Run a sequence of operations from the freshly deployed contract. -/
def execVaultOps (ops : List VaultOp) : VaultState :=
  ops.foldl applyVaultOp initialVaultState

/-- The ledger's structural invariant: a bucket holds exactly the ids of
existing records owned by the bucket's key, buckets have no duplicates,
and the ids of existing records are exactly `1 … _memoryCounter`. -/
def VaultInv (σ : VaultState) : Prop :=
  (∀ a id, id ∈ σ.userMemories a ↔
    ((σ.memories id).existsFlag = true ∧ (σ.memories id).owner = a))
  ∧ (∀ a, (σ.userMemories a).Nodup)
  ∧ (∀ id, (σ.memories id).existsFlag = true ↔ (1 ≤ id ∧ id ≤ σ.memoryCounter))

/-! ### Behaviour of the swap-with-last-and-truncate removal -/

lemma indexOf_decomp {l : List Nat} {x : Nat} (h : x ∈ l) :
    l = l.take (l.indexOf x) ++ x :: l.drop (l.indexOf x + 1) := by
  have hlt : l.indexOf x < l.length := List.indexOf_lt_length.2 h
  conv_lhs => rw [← List.take_append_drop (l.indexOf x) l]
  rw [List.drop_eq_getElem_cons hlt, List.getElem_indexOf hlt]

lemma removeFUM_perm {l : List Nat} {x : Nat} (h : x ∈ l) :
    List.Perm (removeFromUserMemories l x)
      (l.take (l.indexOf x) ++ l.drop (l.indexOf x + 1)) := by
  have hlt : l.indexOf x < l.length := List.indexOf_lt_length.2 h
  have hdec := indexOf_decomp h
  rw [removeFromUserMemories, if_pos h, List.set_eq_take_cons_drop _ hlt]
  rcases (l.drop (l.indexOf x + 1)).eq_nil_or_concat' with hnil | ⟨L, b, hcat⟩
  · have hl : l = l.take (l.indexOf x) ++ [x] := by
      conv_lhs => rw [hdec]
      rw [hnil]
    have hlast : l.getLastD 0 = x := by
      conv_lhs => rw [hl]
      exact List.getLastD_concat _ _ _
    rw [hnil, hlast, List.dropLast_concat]
    simp
  · have hl : l = (l.take (l.indexOf x) ++ x :: L) ++ [b] := by
      conv_lhs => rw [hdec]
      rw [hcat]
      simp
    have hlast : l.getLastD 0 = b := by
      conv_lhs => rw [hl]
      exact List.getLastD_concat _ _ _
    rw [hcat, hlast]
    have hshape : l.take (l.indexOf x) ++ b :: (L ++ [b]) =
        (l.take (l.indexOf x) ++ b :: L) ++ [b] := by simp
    rw [hshape, List.dropLast_concat]
    exact List.Perm.append_left _ (List.perm_append_singleton _ _).symm

lemma removeFUM_of_not_mem {l : List Nat} {x : Nat} (h : x ∉ l) :
    removeFromUserMemories l x = l := by
  rw [removeFromUserMemories, if_neg h]

lemma not_mem_take_indexOf {l : List Nat} {x : Nat}
    (h : x ∈ l.take (l.indexOf x)) : False := by
  obtain ⟨j, hj, hval⟩ := List.mem_iff_getElem.1 h
  have hjlt : j < l.indexOf x := lt_of_lt_of_le hj (by simp [List.length_take])
  have hjidx : j < l.findIdx (· == x) := by simpa [List.indexOf] using hjlt
  have hnp := List.not_of_lt_findIdx hjidx
  rw [List.getElem_take] at hval
  simp [hval] at hnp

lemma mem_removeFUM_iff {l : List Nat} {x y : Nat} (hnd : l.Nodup) :
    y ∈ removeFromUserMemories l x ↔ (y ∈ l ∧ y ≠ x) := by
  by_cases hx : x ∈ l
  · have hperm := removeFUM_perm hx
    have hdec := indexOf_decomp hx
    have hnd' : x ∉ l.take (l.indexOf x) ∧ x ∉ l.drop (l.indexOf x + 1) := by
      constructor
      · exact fun hc => not_mem_take_indexOf hc
      · intro hc
        have hnd2 := hnd
        rw [hdec] at hnd2
        rcases List.nodup_append.1 hnd2 with ⟨-, hcons, -⟩
        exact (List.nodup_cons.1 hcons).1 hc
    rw [hperm.mem_iff, List.mem_append]
    constructor
    · rintro (hin | hin)
      · refine ⟨by rw [hdec]; simp [hin], fun hyx => ?_⟩
        exact hnd'.1 (hyx ▸ hin)
      · refine ⟨by rw [hdec]; simp [hin], fun hyx => ?_⟩
        exact hnd'.2 (hyx ▸ hin)
    · rintro ⟨hin, hyx⟩
      rw [hdec] at hin
      rcases List.mem_append.1 hin with hin | hin
      · exact Or.inl hin
      · rcases List.mem_cons.1 hin with rfl | hin
        · exact absurd rfl hyx
        · exact Or.inr hin
  · rw [removeFUM_of_not_mem hx]
    constructor
    · intro hy
      exact ⟨hy, fun hyx => hx (hyx ▸ hy)⟩
    · exact fun ⟨hy, _⟩ => hy

lemma nodup_removeFUM {l : List Nat} {x : Nat} (hnd : l.Nodup) :
    (removeFromUserMemories l x).Nodup := by
  by_cases hx : x ∈ l
  · have hperm := removeFUM_perm hx
    refine hperm.nodup_iff.2 ?_
    have hdec := indexOf_decomp hx
    have hsub : (l.take (l.indexOf x) ++ l.drop (l.indexOf x + 1)).Sublist l := by
      conv_rhs => rw [hdec]
      exact List.Sublist.append (List.Sublist.refl _) (List.sublist_cons_self _ _)
    exact hnd.sublist hsub
  · rw [removeFUM_of_not_mem hx]; exact hnd

/-! ### Preservation of the ledger invariant -/

lemma vaultInv_store_state {σ : VaultState} (hInv : VaultInv σ)
    (s ts : Nat) (h : String) :
    VaultInv
      { memoryCounter := σ.memoryCounter + 1
        memories := fun i =>
          if i = σ.memoryCounter + 1 then ⟨h, s, ts, true⟩ else σ.memories i
        userMemories := fun a =>
          if a = s then σ.userMemories a ++ [σ.memoryCounter + 1]
          else σ.userMemories a
        events := σ.events ++
          [.memoryStored (σ.memoryCounter + 1) s h ts] } := by
  obtain ⟨hmem, hnd, hdense⟩ := hInv
  have hNnotex : ¬ (σ.memories (σ.memoryCounter + 1)).existsFlag = true := by
    intro hc
    have := (hdense (σ.memoryCounter + 1)).1 hc
    omega
  have hNnotmem : ∀ a, σ.memoryCounter + 1 ∉ σ.userMemories a := by
    intro a hc
    exact hNnotex ((hmem a (σ.memoryCounter + 1)).1 hc).1
  refine ⟨?_, ?_, ?_⟩
  · intro a id
    by_cases hid : id = σ.memoryCounter + 1
    · rw [hid]
      by_cases ha : a = s
      · simp only [if_pos ha, if_pos rfl]
        simp [ha]
      · simp only [if_neg ha, if_pos rfl]
        constructor
        · intro hc
          exact absurd hc (hNnotmem a)
        · rintro ⟨-, hco⟩
          exact absurd hco.symm ha
    · by_cases ha : a = s
      · simp only [if_pos ha, if_neg hid, List.mem_append,
          List.mem_singleton, hid, or_false]
        rw [ha]
        exact hmem s id
      · simp only [if_neg ha, if_neg hid]
        exact hmem a id
  · intro a
    by_cases ha : a = s
    · simp only [if_pos ha]
      rw [List.nodup_append]
      exact ⟨hnd a, List.nodup_singleton _, by
        intro x hx hxe
        rw [List.mem_singleton] at hxe
        exact hNnotmem a (hxe ▸ hx)⟩
    · simp only [if_neg ha]
      exact hnd a
  · intro id
    by_cases hid : id = σ.memoryCounter + 1
    · simp only [if_pos hid]
      simp [hid]
    · simp only [if_neg hid]
      rw [hdense id]
      omega

lemma vaultInv_transfer_state {σ : VaultState} (hInv : VaultInv σ)
    {s memoryId newOwner : Nat}
    (hex : (σ.memories memoryId).existsFlag = true)
    (how : (σ.memories memoryId).owner = s)
    (hns : newOwner ≠ s) :
    VaultInv
      { memoryCounter := σ.memoryCounter
        memories := fun i =>
          if i = memoryId then { σ.memories memoryId with owner := newOwner }
          else σ.memories i
        userMemories := fun a =>
          if a = s then removeFromUserMemories (σ.userMemories a) memoryId
          else if a = newOwner then σ.userMemories a ++ [memoryId]
          else σ.userMemories a
        events := σ.events ++
          [.memoryTransferred memoryId s newOwner] } := by
  obtain ⟨hmem, hnd, hdense⟩ := hInv
  have hnotmem : ∀ a, a ≠ s → memoryId ∉ σ.userMemories a := by
    intro a ha hc
    exact ha (((hmem a memoryId).1 hc).2.symm.trans how)
  refine ⟨?_, ?_, ?_⟩
  · intro a id
    by_cases hid : id = memoryId
    · rw [hid]
      by_cases ha : a = s
      · simp only [if_pos ha, if_pos rfl]
        rw [mem_removeFUM_iff (hnd a)]
        constructor
        · rintro ⟨-, hne⟩
          exact absurd rfl hne
        · rintro ⟨-, hco⟩
          exact absurd (hco.trans ha) hns
      · by_cases hao : a = newOwner
        · simp only [if_neg ha, if_pos hao, if_pos rfl]
          simp [hao, hex]
        · simp only [if_neg ha, if_neg hao, if_pos rfl]
          constructor
          · intro hc
            exact absurd hc (hnotmem a ha)
          · rintro ⟨-, hco⟩
            exact absurd hco.symm hao
    · by_cases ha : a = s
      · simp only [if_pos ha, if_neg hid]
        rw [mem_removeFUM_iff (hnd a)]
        rw [ha]
        constructor
        · rintro ⟨hin, -⟩
          exact (hmem s id).1 hin
        · intro hr
          exact ⟨(hmem s id).2 hr, hid⟩
      · by_cases hao : a = newOwner
        · simp only [if_neg ha, if_pos hao, if_neg hid, List.mem_append,
            List.mem_singleton, hid, or_false]
          rw [hao]
          exact hmem newOwner id
        · simp only [if_neg ha, if_neg hao, if_neg hid]
          exact hmem a id
  · intro a
    by_cases ha : a = s
    · simp only [if_pos ha]
      exact nodup_removeFUM (hnd a)
    · by_cases hao : a = newOwner
      · simp only [if_neg ha, if_pos hao]
        rw [List.nodup_append]
        exact ⟨hnd a, List.nodup_singleton _, by
          intro x hx hxe
          rw [List.mem_singleton] at hxe
          exact hnotmem a ha (hxe ▸ hx)⟩
      · simp only [if_neg ha, if_neg hao]
        exact hnd a
  · intro id
    by_cases hid : id = memoryId
    · simp only [if_pos hid]
      rw [show ({ σ.memories memoryId with owner := newOwner } : MemRec).existsFlag
            = (σ.memories memoryId).existsFlag from rfl]
      rw [hid]
      exact hdense memoryId
    · simp only [if_neg hid]
      exact hdense id

lemma vaultInv_applyVaultOp {σ : VaultState} (hInv : VaultInv σ)
    (op : VaultOp) : VaultInv (applyVaultOp σ op) := by
  cases op with
  | store s ts h =>
    by_cases hh : h = ""
    · simp only [applyVaultOp, storeMemory, if_pos hh]
      exact hInv
    · simp only [applyVaultOp, storeMemory, if_neg hh]
      exact vaultInv_store_state hInv s ts h
  | transfer s memoryId newOwner =>
    rw [applyVaultOp]
    cases htm : transferMemory σ s memoryId newOwner with
    | error e => exact hInv
    | ok σ' =>
      rw [transferMemory] at htm
      split at htm
      · exact absurd htm (by simp)
      · split at htm
        · exact absurd htm (by simp)
        · split at htm
          · exact absurd htm (by simp)
          · split at htm
            · exact absurd htm (by simp)
            · rename_i hnex hown h0 hns
              obtain rfl := Except.ok.inj htm
              exact vaultInv_transfer_state hInv (not_not.1 hnex)
                (not_not.1 hown) hns

lemma vaultInv_initial : VaultInv initialVaultState := by
  refine ⟨?_, ?_, ?_⟩
  · intro a id
    simp [initialVaultState, emptyMemRec]
  · intro a
    simp [initialVaultState]
  · intro id
    simp [initialVaultState, emptyMemRec]
    omega

lemma vaultInv_foldl {σ : VaultState} (hInv : VaultInv σ) :
    ∀ ops : List VaultOp, VaultInv (ops.foldl applyVaultOp σ) := by
  intro ops
  induction ops generalizing σ with
  | nil => exact hInv
  | cons op rest ih =>
    exact ih (vaultInv_applyVaultOp hInv op)

lemma vaultInv_execVaultOps (ops : List VaultOp) :
    VaultInv (execVaultOps ops) :=
  vaultInv_foldl vaultInv_initial ops

/-- `storeMemory` called for each triple `(sender, timestamp, ipfsHash)` in
turn; a reverting call leaves the state unchanged. -/
def execStores (σ : VaultState) (calls : List (Nat × Nat × String)) :
    VaultState :=
  calls.foldl (fun σ c =>
    match storeMemory σ c.1 c.2.1 c.2.2 with
    | .ok (_, σ') => σ'
    | .error _ => σ) σ

/-! ## Helper lemmas about the hex and signature helpers -/

lemma hexPairsToBytes_length :
    ∀ cs : List Char, (hexPairsToBytes cs).length = cs.length / 2
  | [] => by simp [hexPairsToBytes]
  | [_] => by simp [hexPairsToBytes]
  | c1 :: c2 :: rest => by
    rw [hexPairsToBytes]
    simp only [List.length_cons, hexPairsToBytes_length rest]
    omega

lemma jsTruthy_getD {o : Option String} (h : jsTruthy o = true) :
    o.getD "" ≠ "" := by
  cases o with
  | none => simp [jsTruthy] at h
  | some s =>
    simp only [jsTruthy, decide_eq_true_eq] at h
    simpa using h

lemma exceptBind_ok {ε α β : Type} (a : α) (f : α → Except ε β) :
    (Except.ok a : Except ε α) >>= f = f a := rfl

lemma exceptBind_error {ε α β : Type} (e : ε) (f : α → Except ε β) :
    (Except.error e : Except ε α) >>= f = .error e := rfl

lemma exceptPure {ε α : Type} (a : α) :
    (pure a : Except ε α) = .ok a := rfl

lemma jsCatchFalse_ok (b : Bool) : jsCatchFalse (.ok b) = b := rfl

lemma jsCatchFalse_error (e : String) : jsCatchFalse (.error e) = false := rfl

lemma validateSignatureStructure_iff (signature publicKey : String) :
    validateSignatureStructure signature publicKey = true ↔
      ((strip0x signature).length = 128 ∧ (strip0x publicKey).length = 64) := by
  rw [validateSignatureStructure, validateSignatureStructureBody]
  by_cases hs : (strip0x signature).length % 2 = 0
  · by_cases hp : (strip0x publicKey).length % 2 = 0
    · rw [hexToUint8Array, if_neg (by omega), hexToUint8Array, if_neg (by omega)]
      rw [exceptBind_ok, exceptBind_ok, exceptPure, jsCatchFalse_ok]
      simp only [Bool.and_eq_true, beq_iff_eq, hexPairsToBytes_length]
      rw [show ((strip0x signature).data.length = (strip0x signature).length)
            from rfl,
          show ((strip0x publicKey).data.length = (strip0x publicKey).length)
            from rfl]
      constructor
      · rintro ⟨h64, h32⟩
        constructor <;> omega
      · rintro ⟨h128, h64⟩
        constructor <;> omega
    · rw [hexToUint8Array, if_neg (by omega), exceptBind_ok,
        hexToUint8Array, if_pos (by omega), exceptBind_error,
        jsCatchFalse_error]
      constructor
      · intro hc
        exact absurd hc (by simp)
      · rintro ⟨-, h64⟩
        omega
  · rw [hexToUint8Array, if_pos (by omega), exceptBind_error,
      jsCatchFalse_error]
    constructor
    · intro hc
      exact absurd hc (by simp)
    · rintro ⟨h128, -⟩
      omega

lemma tryFormats_eq_find (v : VerifyOracle) (sigBytes pkBytes : List Nat) :
    ∀ formats : List String,
      tryFormats v sigBytes pkBytes formats =
        (formats.find? (fun msg =>
          jsCatchFalse
            (naclDetachedVerify v (textEncode msg) sigBytes pkBytes))).isSome
  | [] => by simp [tryFormats]
  | msg :: rest => by
    rw [tryFormats, List.find?]
    rcases hv : naclDetachedVerify v (textEncode msg) sigBytes pkBytes
      with e | b
    · simp only [jsCatchFalse]
      exact tryFormats_eq_find v sigBytes pkBytes rest
    · cases b with
      | true => simp [jsCatchFalse]
      | false =>
        simp only [jsCatchFalse]
        exact tryFormats_eq_find v sigBytes pkBytes rest

/-! ## Claim C4 -/

/-- C4: when no ledger program address is configured, `storeMemoryOnChain`
returns the mock receipt — `success` (the spec's `confirmed` flag) `true`,
`mock = true`, the synthetic transaction hash `mock_<Date.now()>`, the
input hash echoed — and performs no transport call at all. -/
theorem claim_C4 (moduleName : String) (now : Nat)
    (transport : String → Except String ChainTx) (ipfsHash : String) :
    ∃ r : AnchorReceipt,
      storeMemoryOnChain none moduleName now transport ipfsHash = .ok (r, [])
      ∧ r.mock = some true
      ∧ r.success = true
      ∧ r.txHash = some ("mock_" ++ toString now)
      ∧ r.ipfsHash = some ipfsHash :=
  ⟨_, rfl, rfl, rfl, rfl, rfl⟩

/-! ## Claim C2 -/

/-- C2: the `/wallet` decision does not depend on whether the address
derived from the supplied public key matches the claimed address: any two
address-derivation outcomes (equivalently, any two hash functions, hence
any two requests differing only in that comparison) yield the same
accept/reject outcome; the comparison is only logged. -/
theorem claim_C2 (v : VerifyOracle) (req : WalletAuthReq)
    (h₁ h₂ : HashHex) (b₁ b₂ : Bool) :
    walletAuthDecision v h₁ req = walletAuthDecision v h₂ req
    ∧ walletAuthDecisionCore v b₁ req = walletAuthDecisionCore v b₂ req :=
  ⟨rfl, rfl⟩

/-! ## Claim C3 -/

/-- The candidate list as the claim words it, for comparison with the
source's `messageFormats`: full domain-separated message with nonce first,
then the raw message with the nonce appended, then the raw message alone.
This definition follows the claim's words, not the source. -/
def claimedFallbackFormats (message nonce : String) : List String :=
  [ "APTOS\nmessage: " ++ message ++ "\nnonce: " ++ nonce,
    message ++ nonce,
    message ]

/-- Candidate-encoding verification as the claim describes it: the claimed
ordered candidate list, accepting on the first success.  This definition
follows the claim's words, not the source. -/
def claimedCandidateVerification (v : VerifyOracle)
    (message nonce signature publicKey : String) : Bool :=
  jsCatchFalse (do
    let signatureBytes ← hexToUint8Array (strip0x signature)
    let publicKeyBytes ← hexToUint8Array (strip0x publicKey)
    pure (tryFormats v signatureBytes publicKeyBytes
      (claimedFallbackFormats message nonce)))

set_option maxRecDepth 40000 in
/-- C3 counterexample: an oracle that accepts exactly a signature over the
raw message with the nonce appended (`"mn"` for message `"m"`, nonce
`"n"`).  Under the claim's candidate list verification succeeds, but the
source's `verifySignatureAlternative` rejects: the source tries the raw
message, the Petra template and the two chain-id templates — never the
message with the nonce appended — and it tries the raw message first, not
the domain-separated template. -/
theorem claim_C3_cex :
    claimedCandidateVerification
      (fun msg _ _ => msg == textEncode "mn") "m" "n"
      (String.mk (List.replicate 128 '0')) (String.mk (List.replicate 64 '0'))
      = true
    ∧ verifySignatureAlternative
      (fun msg _ _ => msg == textEncode "mn") "m"
      (String.mk (List.replicate 128 '0')) (String.mk (List.replicate 64 '0'))
      "n" = false := by
  constructor
  · decide
  · decide

/-- C3 (amended): `verifySignatureAlternative` decodes the signature and
public key (any decode failure yields `false`) and then tries the
encodings of `messageFormats` — the raw message first, then the
domain-separated template with nonce, then the chain-id 1 and chain-id 2
templates — accepting on the first candidate whose signature check
succeeds, which `List.find?` makes explicit. -/
theorem claim_C3 (v : VerifyOracle) (message nonce signature publicKey : String) :
    verifySignatureAlternative v message signature publicKey nonce =
      match hexToUint8Array (strip0x signature),
            hexToUint8Array (strip0x publicKey) with
      | .ok sigBytes, .ok pkBytes =>
        ((messageFormats message nonce).find? (fun msg =>
          jsCatchFalse
            (naclDetachedVerify v (textEncode msg) sigBytes pkBytes))).isSome
      | _, _ => false := by
  rw [verifySignatureAlternative, verifySignatureAlternativeBody]
  rcases hsig : hexToUint8Array (strip0x signature) with e | sigBytes
  · rw [exceptBind_error, jsCatchFalse_error]
  · rw [exceptBind_ok]
    rcases hpk : hexToUint8Array (strip0x publicKey) with e | pkBytes
    · rw [exceptBind_error, jsCatchFalse_error]
    · rw [exceptBind_ok, exceptPure, jsCatchFalse_ok]
      exact tryFormats_eq_find v sigBytes pkBytes _

/-! ## Claim C10 -/

/-- C10: the three verification helpers are total boolean functions whose
`catch` maps every internal error to `false`: whenever the `try`-block body
throws, the function returns `false`; in particular any input whose
signature or public key is odd-length hex or decodes to the wrong byte
length (64 bytes for the signature, 32 for the public key, i.e. 128 and 64
hex characters) makes all three return `false` rather than propagate an
exception. -/
theorem claim_C10 (v : VerifyOracle)
    (fullMessage message nonce signature publicKey : String) :
    (∀ e, verifyPetraSignatureBody v fullMessage signature publicKey = .error e →
      verifyPetraSignature v fullMessage signature publicKey = false)
    ∧ (∀ e, verifySignatureAlternativeBody v message signature publicKey nonce
        = .error e →
      verifySignatureAlternative v message signature publicKey nonce = false)
    ∧ (∀ e, validateSignatureStructureBody signature publicKey = .error e →
      validateSignatureStructure signature publicKey = false)
    ∧ ((strip0x signature).length % 2 = 1 ∨ (strip0x publicKey).length % 2 = 1
        ∨ (strip0x signature).length ≠ 128 ∨ (strip0x publicKey).length ≠ 64 →
      verifyPetraSignature v fullMessage signature publicKey = false
      ∧ verifySignatureAlternative v message signature publicKey nonce = false
      ∧ validateSignatureStructure signature publicKey = false) := by
  refine ⟨?_, ?_, ?_, ?_⟩
  · intro e he
    rw [verifyPetraSignature, he, jsCatchFalse_error]
  · intro e he
    rw [verifySignatureAlternative, he, jsCatchFalse_error]
  · intro e he
    rw [validateSignatureStructure, he, jsCatchFalse_error]
  · intro hmal
    have hstruct : validateSignatureStructure signature publicKey = false := by
      rcases hv : validateSignatureStructure signature publicKey with _ | _
      · rfl
      · exfalso
        rcases (validateSignatureStructure_iff signature publicKey).1 hv
          with ⟨h128, h64⟩
        omega
    refine ⟨?_, ?_, hstruct⟩
    · rw [verifyPetraSignature, verifyPetraSignatureBody]
      by_cases hs : (strip0x signature).length % 2 = 0
      · rw [hexToUint8Array, if_neg (by omega), exceptBind_ok]
        by_cases hp : (strip0x publicKey).length % 2 = 0
        · rw [hexToUint8Array, if_neg (by omega), exceptBind_ok]
          rw [naclDetachedVerify]
          rcases hlen : decide ((hexPairsToBytes (strip0x signature).data).length ≠ 64)
            with _ | _
          · rw [if_neg (of_decide_eq_false hlen)]
            have hl64 : (hexPairsToBytes (strip0x signature).data).length = 64 := by
              have := of_decide_eq_false hlen
              omega
            have hpne : (hexPairsToBytes (strip0x publicKey).data).length ≠ 32 := by
              rw [hexPairsToBytes_length]
              rw [show ((strip0x publicKey).data.length = (strip0x publicKey).length)
                from rfl]
              rw [hexPairsToBytes_length] at hl64
              rw [show ((strip0x signature).data.length = (strip0x signature).length)
                from rfl] at hl64
              omega
            rw [if_pos hpne, jsCatchFalse_error]
          · rw [if_pos (of_decide_eq_true hlen), jsCatchFalse_error]
        · rw [hexToUint8Array, if_pos (by omega), exceptBind_error,
            jsCatchFalse_error]
      · rw [hexToUint8Array, if_pos (by omega), exceptBind_error,
          jsCatchFalse_error]
    · rw [claim_C3 v message nonce signature publicKey]
      by_cases hs : (strip0x signature).length % 2 = 0
      · rw [hexToUint8Array, if_neg (by omega)]
        by_cases hp : (strip0x publicKey).length % 2 = 0
        · rw [hexToUint8Array, if_neg (by omega)]
          have hfind : ∀ formats : List String,
              (formats.find? (fun msg =>
                jsCatchFalse (naclDetachedVerify v (textEncode msg)
                  (hexPairsToBytes (strip0x signature).data)
                  (hexPairsToBytes (strip0x publicKey).data)))).isSome = false := by
            intro formats
            rw [List.find?_eq_none.2]
            · rfl
            · intro msg hmsg
              rw [naclDetachedVerify]
              have hbad : (hexPairsToBytes (strip0x signature).data).length ≠ 64
                  ∨ (hexPairsToBytes (strip0x publicKey).data).length ≠ 32 := by
                rw [hexPairsToBytes_length, hexPairsToBytes_length]
                rw [show ((strip0x signature).data.length = (strip0x signature).length)
                  from rfl,
                  show ((strip0x publicKey).data.length = (strip0x publicKey).length)
                  from rfl]
                omega
              rcases hbad with hbad | hbad
              · rw [if_pos hbad, jsCatchFalse_error]
                simp
              · by_cases hsl : (hexPairsToBytes (strip0x signature).data).length ≠ 64
                · rw [if_pos hsl, jsCatchFalse_error]
                  simp
                · rw [if_neg hsl, if_pos hbad, jsCatchFalse_error]
                  simp
          exact hfind _
        · rw [hexToUint8Array, if_pos (by omega)]
      · rw [hexToUint8Array, if_pos (by omega)]

/-! ## Claim C1 -/

/-- C1 (amended): when cryptographic verification fails for all attempted
candidates, the `/wallet` route authenticates exactly when the signature
decodes to 64 bytes, the public key to 32 bytes, and the claimed address
starts with `0x` and has length 66; otherwise it responds 401
`'Invalid wallet signature'`.  The acceptance carries no caller-visible
reduced-assurance flag (see the counterexample): it is the same
`authenticated` continuation as a cryptographically verified attempt. -/
theorem claim_C1 (v : VerifyOracle) (h : HashHex) (req : WalletAuthReq)
    (haddr : jsTruthy req.address = true)
    (hpk : jsTruthy req.publicKey = true)
    (hsig : jsTruthy req.signature = true)
    (hm1 : verifyPetraSignature v (req.fullMessage.getD "")
      (req.signature.getD "") (req.publicKey.getD "") = false)
    (hm2 : verifySignatureAlternative v (req.message.getD "")
      (req.signature.getD "") (req.publicKey.getD "")
      (req.nonce.getD "") = false) :
    (walletAuthDecision v h req =
        .authenticated (req.address.getD "") (req.publicKey.getD "") ↔
      (validateSignatureStructure (req.signature.getD "")
          (req.publicKey.getD "") = true
        ∧ startsWith0x (req.address.getD "") = true
        ∧ (req.address.getD "").length = 66))
    ∧ (¬ (validateSignatureStructure (req.signature.getD "")
          (req.publicKey.getD "") = true
        ∧ startsWith0x (req.address.getD "") = true
        ∧ (req.address.getD "").length = 66) →
      walletAuthDecision v h req = .unauthorized) := by
  have haddr' : req.address.getD "" ≠ "" := jsTruthy_getD haddr
  by_cases hstruct : validateSignatureStructure (req.signature.getD "")
      (req.publicKey.getD "") = true
  · by_cases hpfx : startsWith0x (req.address.getD "") = true
    · by_cases hlen : (req.address.getD "").length = 66
      · constructor
        · simp [walletAuthDecision, walletAuthDecisionCore, haddr, hpk, hsig,
            hm1, hm2, hstruct, hpfx, hlen, haddr']
        · intro hcon
          exact absurd ⟨hstruct, hpfx, hlen⟩ hcon
      · constructor
        · simp [walletAuthDecision, walletAuthDecisionCore, haddr, hpk, hsig,
            hm1, hm2, hstruct, hpfx, hlen, haddr']
        · intro _
          simp [walletAuthDecision, walletAuthDecisionCore, haddr, hpk, hsig,
            hm1, hm2, hstruct, hpfx, hlen, haddr']
    · constructor
      · simp [walletAuthDecision, walletAuthDecisionCore, haddr, hpk, hsig,
          hm1, hm2, hstruct, hpfx, haddr']
      · intro _
        simp [walletAuthDecision, walletAuthDecisionCore, haddr, hpk, hsig,
          hm1, hm2, hstruct, hpfx, haddr']
  · constructor
    · simp [walletAuthDecision, walletAuthDecisionCore, haddr, hpk, hsig,
        hm1, hm2, hstruct, haddr']
    · intro _
      simp [walletAuthDecision, walletAuthDecisionCore, haddr, hpk, hsig,
        hm1, hm2, hstruct, haddr']

set_option maxRecDepth 100000 in
/-- C1 counterexample: two requests identical except for the signature, for
an oracle that accepts only the first signature.  The first request is
accepted through cryptographic verification, the second through the
structural fallback (its cryptographic check fails), yet the route's
outcome is the *same* `authenticated` value for both: nothing
caller-visible distinguishes the reduced-assurance acceptance, so the
claim's "with a reduced-assurance flag visible to the caller" fails. -/
theorem claim_C1_cex :
    (verifyPetraSignature
        (fun _ s _ => s == List.replicate 64 0) "login"
        (String.mk (List.replicate 128 '0'))
        (String.mk (List.replicate 64 '0')) = true)
    ∧ (verifyPetraSignature
        (fun _ s _ => s == List.replicate 64 0) "login"
        (String.mk (List.replicate 128 '1'))
        (String.mk (List.replicate 64 '0')) = false)
    ∧ walletAuthDecision (fun _ s _ => s == List.replicate 64 0) (fun _ => "")
        { address := some (String.mk ('0' :: 'x' :: List.replicate 64 '3'))
          publicKey := some (String.mk (List.replicate 64 '0'))
          signature := some (String.mk (List.replicate 128 '0'))
          message := none
          nonce := none
          fullMessage := some "login" } =
      .authenticated (String.mk ('0' :: 'x' :: List.replicate 64 '3'))
        (String.mk (List.replicate 64 '0'))
    ∧ walletAuthDecision (fun _ s _ => s == List.replicate 64 0) (fun _ => "")
        { address := some (String.mk ('0' :: 'x' :: List.replicate 64 '3'))
          publicKey := some (String.mk (List.replicate 64 '0'))
          signature := some (String.mk (List.replicate 128 '1'))
          message := none
          nonce := none
          fullMessage := some "login" } =
      .authenticated (String.mk ('0' :: 'x' :: List.replicate 64 '3'))
        (String.mk (List.replicate 64 '0')) := by
  refine ⟨by decide, by decide, by decide, by decide⟩

/-! ## Claim C9 -/

/-- The spec's notion of decoding a well-formed hex string: every
character pair is two hex digits, and each pair contributes the byte
`16·hi + lo`; `none` when the string is not well-formed hex.  This
definition follows the spec's words, for comparison with
`hexToUint8Array`. -/
def specHexBytes : List Char → Option (List Nat)
  | [] => some []
  | c1 :: c2 :: rest =>
    match hexDigitVal c1, hexDigitVal c2, specHexBytes rest with
    | some v1, some v2, some bs => some ((16 * v1 + v2) :: bs)
    | _, _, _ => none
  | [_] => none

lemma hexDigitVal_of_eq_none {c : Char} {v : Nat}
    (hnone : hexDigitVal c = none) (h : hexDigitVal c = some v) : False := by
  rw [hnone] at h
  exact Option.noConfusion h

lemma hexDigitVal_lt {c : Char} {v : Nat} (h : hexDigitVal c = some v) :
    v < 16 := by
  by_cases hd : '0' ≤ c ∧ c ≤ '9'
  · rw [hexDigitVal, if_pos hd] at h
    obtain rfl := Option.some.inj h
    have hhi := hd.2
    simp [Char.le_def] at hhi
    have hhi' : c.toNat ≤ 57 := hhi
    rw [show '0'.toNat = 48 from rfl]
    omega
  · by_cases hl : 'a' ≤ c ∧ c ≤ 'f'
    · rw [hexDigitVal, if_neg hd, if_pos hl] at h
      obtain rfl := Option.some.inj h
      have hhi := hl.2
      simp [Char.le_def] at hhi
      have hhi' : c.toNat ≤ 102 := hhi
      rw [show 'a'.toNat = 97 from rfl]
      omega
    · by_cases hu : 'A' ≤ c ∧ c ≤ 'F'
      · rw [hexDigitVal, if_neg hd, if_neg hl, if_pos hu] at h
        obtain rfl := Option.some.inj h
        have hhi := hu.2
        simp [Char.le_def] at hhi
        have hhi' : c.toNat ≤ 70 := hhi
        rw [show 'A'.toNat = 65 from rfl]
        omega
      · rw [hexDigitVal, if_neg hd, if_neg hl, if_neg hu] at h
        exact Option.noConfusion h

lemma jsParseIntHex2_hex {c1 c2 : Char} {v1 v2 : Nat}
    (h1 : hexDigitVal c1 = some v1) (h2 : hexDigitVal c2 = some v2) :
    jsParseIntHex2 c1 c2 = some ((16 * v1 + v2 : Nat) : Int) := by
  have hw : jsWhitespace c1 = false := by
    cases hjw : jsWhitespace c1
    · rfl
    · exfalso
      simp only [jsWhitespace, decide_eq_true_eq] at hjw
      rcases hjw with rfl | rfl | rfl | rfl | rfl | rfl <;>
        exact hexDigitVal_of_eq_none (by decide) h1
  have hplus : c1 ≠ '+' := fun he =>
    hexDigitVal_of_eq_none (by decide) (he ▸ h1)
  have hminus : c1 ≠ '-' := fun he =>
    hexDigitVal_of_eq_none (by decide) (he ▸ h1)
  have h0x : ¬ (c1 = '0' ∧ (c2 = 'x' ∨ c2 = 'X')) := by
    rintro ⟨-, rfl | rfl⟩ <;> exact hexDigitVal_of_eq_none (by decide) h2
  rw [jsParseIntHex2, hw]
  rw [if_neg (by simp), if_neg hplus, if_neg hminus, if_neg h0x, h1, h2]

lemma hexPairsToBytes_spec : ∀ (cs : List Char) (bs : List Nat),
    specHexBytes cs = some bs → hexPairsToBytes cs = bs ∧ cs.length % 2 = 0
  | [], bs, h => by
    rw [specHexBytes] at h
    obtain rfl := Option.some.inj h
    exact ⟨rfl, rfl⟩
  | [_], bs, h => by
    rw [specHexBytes] at h
    exact Option.noConfusion h
  | c1 :: c2 :: rest, bs, h => by
    rw [specHexBytes] at h
    rcases h1 : hexDigitVal c1 with _ | v1 <;> rw [h1] at h
    · exact Option.noConfusion h
    rcases h2 : hexDigitVal c2 with _ | v2 <;> rw [h2] at h
    · exact Option.noConfusion h
    rcases hr : specHexBytes rest with _ | bs' <;> rw [hr] at h
    · exact Option.noConfusion h
    obtain rfl := Option.some.inj h
    obtain ⟨ih1, ih2⟩ := hexPairsToBytes_spec rest bs' hr
    constructor
    · rw [hexPairsToBytes, jsParseIntHex2_hex h1 h2, ih1, jsToUint8]
      have hv1 := hexDigitVal_lt h1
      have hv2 := hexDigitVal_lt h2
      congr 1
      omega
    · simp only [List.length_cons]
      omega

/-- C9 counterexample: the even-length input `"0xzz"` strips to `"zz"`,
which contains no hex digit at all, yet normalization does not fail with
`InvalidEncoding`: `parseInt('zz', 16)` is `NaN`, which the `Uint8Array`
store turns into the byte `0`.  The claim's "fails … exactly when the
remaining string has odd length or contains a non-hex character" is
therefore false. -/
theorem claim_C9_cex :
    (∀ c ∈ (strip0x "0xzz").data, hexDigitVal c = none)
    ∧ hexToUint8Array (strip0x "0xzz") = .ok [0] := by
  exact ⟨by decide, by decide⟩

/-- C9 (amended): after stripping the optional `0x` prefix,
`hexToUint8Array` fails (with `'Invalid hex string'`) exactly when the
remaining string has odd length; non-hex characters are not rejected —
each two-character chunk goes through JavaScript `parseInt` semantics
(`NaN` becomes byte 0).  On a well-formed even-length hex string it
returns the corresponding byte sequence. -/
theorem claim_C9 (s : String) :
    ((∃ e, hexToUint8Array (strip0x s) = .error e) ↔
      (strip0x s).length % 2 = 1)
    ∧ (∀ bs, specHexBytes (strip0x s).data = some bs →
        hexToUint8Array (strip0x s) = .ok bs) := by
  constructor
  · constructor
    · rintro ⟨e, he⟩
      rw [hexToUint8Array] at he
      split at he
      · rename_i hc
        omega
      · exact Except.noConfusion he
    · intro hodd
      exact ⟨"Invalid hex string", by rw [hexToUint8Array, if_pos (by omega)]⟩
  · intro bs hbs
    obtain ⟨hb, heven⟩ := hexPairsToBytes_spec _ bs hbs
    rw [hexToUint8Array,
      if_neg (by
        rw [show (strip0x s).length = (strip0x s).data.length from rfl]
        omega),
      hb]

/-! ## Claim C5 -/

/-- C5: `storeMemory` fails with `InvalidInput` exactly on the empty
content hash; on a non-empty hash it assigns id `counter + 1`, increments
the total count by one (so `N` successful creates add `N` to the count,
with ids starting at 1 on the fresh contract), records the caller as
owner, appends the id to the caller's bucket, emits the `MemoryStored`
event, and a subsequent `getMemory` returns the stored hash, owner and
timestamp. -/
theorem claim_C5 (σ : VaultState) (sender ts : Nat) (contentHash : String) :
    (storeMemory σ sender ts contentHash = .error .invalidInput ↔
      contentHash = "")
    ∧ (contentHash ≠ "" →
        ∃ σ', storeMemory σ sender ts contentHash =
            .ok (σ.memoryCounter + 1, σ')
          ∧ getTotalMemories σ' = getTotalMemories σ + 1
          ∧ (σ'.memories (σ.memoryCounter + 1)).owner = sender
          ∧ (σ'.memories (σ.memoryCounter + 1)).existsFlag = true
          ∧ getUserMemories σ' sender =
              getUserMemories σ sender ++ [σ.memoryCounter + 1]
          ∧ σ'.events = σ.events ++
              [.memoryStored (σ.memoryCounter + 1) sender contentHash ts]
          ∧ getMemory σ' (σ.memoryCounter + 1) = .ok (contentHash, sender, ts))
    ∧ (∀ calls : List (Nat × Nat × String), (∀ c ∈ calls, c.2.2 ≠ "") →
        getTotalMemories (execStores σ calls) =
          getTotalMemories σ + calls.length) := by
  refine ⟨?_, ?_, ?_⟩
  · constructor
    · intro he
      by_contra hne
      rw [storeMemory, if_neg hne] at he
      exact Except.noConfusion he
    · intro he
      rw [storeMemory, if_pos he]
  · intro hne
    refine ⟨{ memoryCounter := σ.memoryCounter + 1
              memories := fun i =>
                if i = σ.memoryCounter + 1 then ⟨contentHash, sender, ts, true⟩
                else σ.memories i
              userMemories := fun a =>
                if a = sender then σ.userMemories a ++ [σ.memoryCounter + 1]
                else σ.userMemories a
              events := σ.events ++
                [.memoryStored (σ.memoryCounter + 1) sender contentHash ts] },
      by rw [storeMemory, if_neg hne], rfl, by simp, by simp,
      by simp [getUserMemories], rfl, by simp [getMemory]⟩
  · intro calls
    induction calls generalizing σ with
    | nil =>
      intro _
      simp [execStores]
    | cons c rest ih =>
      intro hall
      have hc : c.2.2 ≠ "" := hall c (List.mem_cons_self c rest)
      obtain ⟨σ₁, hok1, hok2⟩ : ∃ σ₁,
          storeMemory σ c.1 c.2.1 c.2.2 = .ok (σ.memoryCounter + 1, σ₁)
          ∧ getTotalMemories σ₁ = getTotalMemories σ + 1 := by
        rw [storeMemory, if_neg hc]
        exact ⟨_, rfl, rfl⟩
      have hexec : execStores σ (c :: rest) = execStores σ₁ rest := by
        simp only [execStores, List.foldl_cons, hok1]
      rw [hexec, ih σ₁ (fun d hd => hall d (List.mem_cons_of_mem c hd)), hok2]
      simp only [List.length_cons]
      omega

/-! ## Claim C6 -/

/-- C6: `transferMemory` fails with `NotFound` when the record does not
exist, with `NotAuthorized` when the caller is not the current owner, and
with `InvalidInput` when the new owner is the null address or the caller
itself (checked in that order); every failing call reverts, leaving the
ledger state exactly as before the call. -/
theorem claim_C6 (σ : VaultState) (sender memoryId newOwner : Nat) :
    ((transferMemoryExec σ sender memoryId newOwner).1 = some .notFound ↔
      (σ.memories memoryId).existsFlag = false)
    ∧ ((transferMemoryExec σ sender memoryId newOwner).1 = some .notAuthorized ↔
      ((σ.memories memoryId).existsFlag = true
        ∧ (σ.memories memoryId).owner ≠ sender))
    ∧ ((transferMemoryExec σ sender memoryId newOwner).1 = some .invalidInput ↔
      ((σ.memories memoryId).existsFlag = true
        ∧ (σ.memories memoryId).owner = sender
        ∧ (newOwner = 0 ∨ newOwner = sender)))
    ∧ (∀ e, (transferMemoryExec σ sender memoryId newOwner).1 = some e →
        (transferMemoryExec σ sender memoryId newOwner).2 = σ) := by
  by_cases hex : (σ.memories memoryId).existsFlag = true
  · by_cases how : (σ.memories memoryId).owner = sender
    · by_cases h0 : newOwner = 0
      · simp [transferMemoryExec, transferMemory, hex, how, h0]
      · by_cases hns : newOwner = sender
        · simp [transferMemoryExec, transferMemory, hex, how, h0, hns]
        · simp [transferMemoryExec, transferMemory, hex, how, h0, hns]
    · simp [transferMemoryExec, transferMemory, hex, how]
  · have hex' : (σ.memories memoryId).existsFlag = false := by
      cases hv : (σ.memories memoryId).existsFlag
      · rfl
      · exact absurd hv hex
    simp [transferMemoryExec, transferMemory, hex, hex']

/-! ## Claim C7 -/

/-- C7: a successful `transferMemory(id, B)` by owner `A` makes `B` the
record's owner, removes `id` from `A`'s bucket (swap-with-last removal)
and appends it to `B`'s bucket, while preserving the record's hash,
timestamp and existence flag, the total counter, every other record, and
every other owner's bucket. -/
theorem claim_C7 (σ : VaultState) (A B memoryId : Nat)
    (hInv : VaultInv σ)
    (hex : (σ.memories memoryId).existsFlag = true)
    (hown : (σ.memories memoryId).owner = A)
    (hB0 : B ≠ 0) (hBA : B ≠ A) :
    ∃ σ', transferMemory σ A memoryId B = .ok σ'
      ∧ (σ'.memories memoryId).owner = B
      ∧ memoryId ∉ getUserMemories σ' A
      ∧ memoryId ∈ getUserMemories σ' B
      ∧ (σ'.memories memoryId).ipfsHash = (σ.memories memoryId).ipfsHash
      ∧ (σ'.memories memoryId).timestamp = (σ.memories memoryId).timestamp
      ∧ (σ'.memories memoryId).existsFlag = (σ.memories memoryId).existsFlag
      ∧ getTotalMemories σ' = getTotalMemories σ
      ∧ (∀ j, j ≠ memoryId → σ'.memories j = σ.memories j)
      ∧ (∀ a, a ≠ A → a ≠ B → getUserMemories σ' a = getUserMemories σ a) := by
  obtain ⟨hmem, hnd, hdense⟩ := hInv
  refine ⟨{ memoryCounter := σ.memoryCounter
            memories := fun i =>
              if i = memoryId then { σ.memories memoryId with owner := B }
              else σ.memories i
            userMemories := fun a =>
              if a = A then removeFromUserMemories (σ.userMemories a) memoryId
              else if a = B then σ.userMemories a ++ [memoryId]
              else σ.userMemories a
            events := σ.events ++ [.memoryTransferred memoryId A B] },
    by rw [transferMemory, if_neg (by simp [hex]),
      if_neg (by simp [hown]), if_neg hB0, if_neg hBA],
    by simp, ?_, ?_, by simp, by simp, by simp, rfl, ?_, ?_⟩
  · show memoryId ∉
      (if A = A then removeFromUserMemories (σ.userMemories A) memoryId
       else if A = B then σ.userMemories A ++ [memoryId] else σ.userMemories A)
    rw [if_pos rfl, mem_removeFUM_iff (hnd A)]
    rintro ⟨-, hne⟩
    exact hne rfl
  · show memoryId ∈
      (if B = A then removeFromUserMemories (σ.userMemories B) memoryId
       else if B = B then σ.userMemories B ++ [memoryId] else σ.userMemories B)
    rw [if_neg hBA, if_pos rfl]
    simp
  · intro j hj
    simp [hj]
  · intro a haA haB
    show (if a = A then removeFromUserMemories (σ.userMemories a) memoryId
       else if a = B then σ.userMemories a ++ [memoryId]
       else σ.userMemories a) = getUserMemories σ a
    rw [if_neg haA, if_neg haB]
    rfl

/-! ## Claim C8 -/

/-- C8: in every state reachable by any sequence of `storeMemory` and
`transferMemory` calls from the fresh contract, an id is in an address's
bucket exactly when the record exists and that address is its owner; no id
is in two different owners' buckets; and the existing ids are exactly
`1 … counter` (dense, increasing, never reused). -/
theorem claim_C8 (ops : List VaultOp) :
    (∀ a id, id ∈ getUserMemories (execVaultOps ops) a ↔
      (((execVaultOps ops).memories id).existsFlag = true
        ∧ ((execVaultOps ops).memories id).owner = a))
    ∧ (∀ a b id, id ∈ getUserMemories (execVaultOps ops) a →
        id ∈ getUserMemories (execVaultOps ops) b → a = b)
    ∧ (∀ id, ((execVaultOps ops).memories id).existsFlag = true ↔
        (1 ≤ id ∧ id ≤ getTotalMemories (execVaultOps ops))) := by
  obtain ⟨hmem, hnd, hdense⟩ := vaultInv_execVaultOps ops
  exact ⟨fun a id => hmem a id,
    fun a b id ha hb =>
      (((hmem a id).1 ha).2.symm).trans ((hmem b id).1 hb).2,
    hdense⟩

/-! ## Witnesses -/

set_option maxRecDepth 100000 in
/-- Witness for C1: a request whose cryptographic verification fails under
the never-accepting oracle but whose signature and public key have the
right byte lengths and whose address is `0x…` of length 66 is
authenticated through the structural fallback. -/
theorem claim_C1_witness :
    walletAuthDecision (fun _ _ _ => false) (fun _ => "")
      { address := some (String.mk ('0' :: 'x' :: List.replicate 64 '3'))
        publicKey := some (String.mk (List.replicate 64 '0'))
        signature := some (String.mk (List.replicate 128 '0'))
        message := none
        nonce := none
        fullMessage := none } =
      .authenticated (String.mk ('0' :: 'x' :: List.replicate 64 '3'))
        (String.mk (List.replicate 64 '0')) :=
  ((claim_C1 (fun _ _ _ => false) (fun _ => "")
      { address := some (String.mk ('0' :: 'x' :: List.replicate 64 '3'))
        publicKey := some (String.mk (List.replicate 64 '0'))
        signature := some (String.mk (List.replicate 128 '0'))
        message := none
        nonce := none
        fullMessage := none }
      (by decide) (by decide) (by decide) (by decide) (by decide)).1).2
    ⟨by decide, by decide, by decide⟩

/-- Witness for C5: storing `"Qm"` as account 5 on the fresh contract
yields id 1, the expected record, bucket, event and `getMemory` result,
and one successful create raises the count by one. -/
theorem claim_C5_witness :
    (∃ σ', storeMemory initialVaultState 5 0 "Qm" =
        .ok (initialVaultState.memoryCounter + 1, σ')
      ∧ getTotalMemories σ' = getTotalMemories initialVaultState + 1
      ∧ (σ'.memories (initialVaultState.memoryCounter + 1)).owner = 5
      ∧ (σ'.memories (initialVaultState.memoryCounter + 1)).existsFlag = true
      ∧ getUserMemories σ' 5 = getUserMemories initialVaultState 5 ++
          [initialVaultState.memoryCounter + 1]
      ∧ σ'.events = initialVaultState.events ++
          [.memoryStored (initialVaultState.memoryCounter + 1) 5 "Qm" 0]
      ∧ getMemory σ' (initialVaultState.memoryCounter + 1) = .ok ("Qm", 5, 0))
    ∧ getTotalMemories (execStores initialVaultState [(1, 2, "a")]) =
        getTotalMemories initialVaultState + [(1, 2, "a")].length :=
  ⟨(claim_C5 initialVaultState 5 0 "Qm").2.1 (by decide),
   (claim_C5 initialVaultState 5 0 "Qm").2.2 [(1, 2, "a")] (by decide)⟩

/-- Witness for C6: a transfer of record 1 attempted by non-owner 9 on a
one-record ledger fails and leaves the state unchanged. -/
theorem claim_C6_witness :
    (transferMemoryExec (execVaultOps [.store 5 0 "h"]) 9 1 7).2 =
      execVaultOps [.store 5 0 "h"] :=
  (claim_C6 (execVaultOps [.store 5 0 "h"]) 9 1 7).2.2.2
    .notAuthorized (by decide)

/-- Witness for C7: owner 5 transfers record 1 to account 7 on a
one-record ledger. -/
theorem claim_C7_witness :
    ∃ σ', transferMemory (execVaultOps [.store 5 0 "h"]) 5 1 7 = .ok σ'
      ∧ (σ'.memories 1).owner = 7
      ∧ 1 ∉ getUserMemories σ' 5
      ∧ 1 ∈ getUserMemories σ' 7
      ∧ (σ'.memories 1).ipfsHash =
          ((execVaultOps [.store 5 0 "h"]).memories 1).ipfsHash
      ∧ (σ'.memories 1).timestamp =
          ((execVaultOps [.store 5 0 "h"]).memories 1).timestamp
      ∧ (σ'.memories 1).existsFlag =
          ((execVaultOps [.store 5 0 "h"]).memories 1).existsFlag
      ∧ getTotalMemories σ' = getTotalMemories (execVaultOps [.store 5 0 "h"])
      ∧ (∀ j, j ≠ 1 → σ'.memories j =
          (execVaultOps [.store 5 0 "h"]).memories j)
      ∧ (∀ a, a ≠ 5 → a ≠ 7 → getUserMemories σ' a =
          getUserMemories (execVaultOps [.store 5 0 "h"]) a) :=
  claim_C7 (execVaultOps [.store 5 0 "h"]) 5 7 1
    (vaultInv_execVaultOps [.store 5 0 "h"])
    (by decide) (by decide) (by decide) (by decide)

/-- Witness for C8: on a one-record ledger, id 1 sits in owner 5's bucket,
as the invariant demands. -/
theorem claim_C8_witness :
    1 ∈ getUserMemories (execVaultOps [.store 5 0 "h"]) 5
    ∧ ((execVaultOps [.store 5 0 "h"]).memories 1).existsFlag = true :=
  ⟨((claim_C8 [.store 5 0 "h"]).1 5 1).2 ⟨by decide, by decide⟩, by decide⟩

/-- Witness for C9: `"0xdeadbeef"` strips to well-formed hex and decodes
to the expected bytes. -/
theorem claim_C9_witness :
    hexToUint8Array (strip0x "0xdeadbeef") = .ok [222, 173, 190, 239] :=
  (claim_C9 "0xdeadbeef").2 [222, 173, 190, 239] (by decide)

/-- Witness for C10: with an odd-length signature string, all three
helpers return `false` even under an always-accepting oracle. -/
theorem claim_C10_witness :
    verifyPetraSignature (fun _ _ _ => true) "fm" "abc" "00" = false
    ∧ verifySignatureAlternative (fun _ _ _ => true) "m" "abc" "00" "n" = false
    ∧ validateSignatureStructure "abc" "00" = false :=
  (claim_C10 (fun _ _ _ => true) "fm" "m" "n" "abc" "00").2.2.2
    (Or.inl (by decide))

end LifeVault
